import Mathlib

/-!
Verification development for the catty repository: a shallow embedding of the
session control plane, the executor, the metering proxy and the wire protocol,
with theorems settling the specification claims.

Strings from the Go sources are modelled as `List Char`; machine integers
(`int64`) as `Int`; unsigned 16-bit quantities as `Nat` with an explicit
`< 65536` bound where the wire format enforces it.  Database access is
abstracted by passing the relevant rows (or row-derived totals) as explicit
arguments; HTTP side effects are recorded as explicit effect lists.
-/

namespace Catty

/-! ## List-of-characters utilities shared by the embeddings -/

/-- Split a list at the first occurrence of `c`: models `strings.SplitN(s, c, 2)`
returning two parts; `none` models the one-part result (no separator found). -/
def splitFirst (c : Char) : List Char → Option (List Char × List Char)
  | [] => none
  | x :: xs =>
    if x = c then some ([], xs)
    else
      match splitFirst c xs with
      | some (l, r) => some (x :: l, r)
      | none => none

/-- Split a list on every occurrence of `c` (models `strings.Split`). -/
def splitOnChar (c : Char) : List Char → List (List Char)
  | [] => [[]]
  | x :: xs =>
    let r := splitOnChar c xs
    if x = c then [] :: r
    else
      match r with
      | h :: t => (x :: h) :: t
      | [] => [[x]]

/-- Index of the first occurrence of sublist `pat` (models `bytes.Index`). -/
def findSub (pat : List Char) : List Char → Option Nat
  | [] => if pat.isPrefixOf ([] : List Char) then some 0 else none
  | x :: xs =>
    if pat.isPrefixOf (x :: xs) then some 0
    else (findSub pat xs).map (· + 1)

/-- ASCII case folding of one character.  The source uses `strings.ToLower`
(Unicode); on the comparison against the all-ASCII literal "bearer" the two
folds agree, since no non-ASCII character lowers to an ASCII letter. -/
def asciiLower (c : Char) : Char :=
  if 'A' ≤ c ∧ c ≤ 'Z' then Char.ofNat (c.toNat + 32) else c

/-! ## Lexical path cleaning (models `path/filepath` on rooted paths) -/

/-- Process path components as `filepath.Clean` does on a rooted path:
empty and `.` components vanish, `..` pops, others push. -/
def cleanComps (comps : List (List Char)) : List (List Char) :=
  comps.foldl
    (fun st c =>
      if c = [] ∨ c = ['.'] then st
      else if c = ['.', '.'] then st.dropLast
      else st ++ [c])
    []

/-- Render cleaned components back into a rooted path. -/
def renderAbs (comps : List (List Char)) : List Char :=
  '/' :: List.intercalate ['/'] comps

/-- `filepath.Clean` on a rooted path. -/
def cleanAbs (p : List Char) : List Char :=
  renderAbs (cleanComps (splitOnChar '/' p))

/-- `filepath.Join(dir, name)` for a rooted `dir`: concatenate with a
separator, then clean. -/
def goJoin (dir name : List Char) : List Char :=
  cleanAbs (dir ++ '/' :: name)

/-- `filepath.Dir`: everything up to the final separator, cleaned.
On inputs without a separator the source returns "."; our call sites always
pass rooted paths. -/
def goDir (p : List Char) : List Char :=
  let pre := (p.reverse.dropWhile (fun c => c ≠ '/')).reverse
  if pre = [] then ['.'] else cleanAbs pre

/-! ## Wire protocol (internal/protocol/messages.go)

Control frames are modelled at the JSON-value level: `Json` is the value a
byte-level `encoding/json` round trip preserves, `marshalMsg` is the Go
struct marshaller (fields in struct order), and `parseMessage` is
`ParseMessage` composed with the per-struct `json.Unmarshal` semantics. -/

/-- JSON values (integer-only numbers: the subset every payload in this
protocol uses; `encoding/json` rejects fractional numbers in the integer
fields read here). -/
inductive Json where
  | null
  | bool (b : Bool)
  | num (n : Int)
  | str (s : List Char)
  | arr (elems : List Json)
  | obj (fields : List (List Char × Json))

/-- Field lookup with Go's duplicate-key semantics: the last occurrence of a
key wins when `json.Unmarshal` fills a struct. -/
def jLookup (fields : List (List Char × Json)) (k : List Char) : Option Json :=
  (fields.reverse.find? (fun f => f.1 = k)).map (·.2)

/-- `json.Unmarshal` of an object field into a Go `string`:
missing or `null` yields the zero value "", a non-string value is an error. -/
def uFieldString (fields : List (List Char × Json)) (k : List Char) :
    Option (List Char) :=
  match jLookup fields k with
  | none => some []
  | some .null => some []
  | some (.str s) => some s
  | some _ => none

/-- `json.Unmarshal` of an object field into a Go `int64`. -/
def uFieldInt (fields : List (List Char × Json)) (k : List Char) : Option Int :=
  match jLookup fields k with
  | none => some 0
  | some .null => some 0
  | some (.num n) => some n
  | some _ => none

/-- `json.Unmarshal` of an object field into a Go `uint16`: out-of-range
numbers are unmarshalling errors. -/
def uFieldU16 (fields : List (List Char × Json)) (k : List Char) : Option Nat :=
  match jLookup fields k with
  | none => some 0
  | some .null => some 0
  | some (.num n) => if 0 ≤ n ∧ n < 65536 then some n.toNat else none
  | some _ => none

/-- `json.Unmarshal` of an object field into a Go `*string`:
missing or `null` yields `nil`. -/
def uFieldOptString (fields : List (List Char × Json)) (k : List Char) :
    Option (Option (List Char)) :=
  match jLookup fields k with
  | none => some none
  | some .null => some none
  | some (.str s) => some (some s)
  | some _ => none

/-- Semantic values of the control frames (internal/protocol/messages.go).
`unknown` models the `*BaseMessage` fallback `ParseMessage` returns for an
unrecognised `type` discriminant. -/
inductive Msg where
  | resize (cols rows : Nat)
  | signal (name : List Char)
  | ping
  | pong
  | ready
  | exitFrame (code : Int) (sig : Option (List Char))
  | errorFrame (message : List Char)
  | unknown (t : List Char)
  deriving DecidableEq

/-- `json.Marshal` of each message struct, at the JSON-value level: fields in
Go struct order with their json tags as keys. -/
def marshalMsg : Msg → Json
  | .resize cols rows =>
      .obj [("type".data, .str "resize".data),
            ("cols".data, .num cols), ("rows".data, .num rows)]
  | .signal name =>
      .obj [("type".data, .str "signal".data), ("name".data, .str name)]
  | .ping => .obj [("type".data, .str "ping".data)]
  | .pong => .obj [("type".data, .str "pong".data)]
  | .ready => .obj [("type".data, .str "ready".data)]
  | .exitFrame code sig =>
      .obj [("type".data, .str "exit".data), ("code".data, .num code),
            ("signal".data, match sig with | none => .null | some s => .str s)]
  | .errorFrame message =>
      .obj [("type".data, .str "error".data), ("message".data, .str message)]
  | .unknown t => .obj [("type".data, .str t)]

/-- `ParseMessage` (internal/protocol/messages.go:64): unmarshal the `type`
discriminant, then unmarshal the full struct for that type; unknown types
return the bare `BaseMessage`.  `none` models a parse error. -/
def parseMessage (j : Json) : Option Msg :=
  match j with
  | .obj fields =>
    match uFieldString fields "type".data with
    | none => none
    | some t =>
      if t = "resize".data then
        match uFieldU16 fields "cols".data, uFieldU16 fields "rows".data with
        | some c, some r => some (.resize c r)
        | _, _ => none
      else if t = "signal".data then
        match uFieldString fields "name".data with
        | some n => some (.signal n)
        | none => none
      else if t = "ping".data then some .ping
      else if t = "pong".data then some .pong
      else if t = "ready".data then some .ready
      else if t = "exit".data then
        match uFieldInt fields "code".data,
              uFieldOptString fields "signal".data with
        | some c, some s => some (.exitFrame c s)
        | _, _ => none
      else if t = "error".data then
        match uFieldString fields "message".data with
        | some m => some (.errorFrame m)
        | none => none
      else some (.unknown t)
  | _ => none

/-! ## Pty window sizing (pty.go and relay.go) -/

/-- A pty window size (`pty.Winsize`, cols and rows as `uint16`). -/
structure Winsize where
  cols : Nat
  rows : Nat
  deriving DecidableEq

/-- `PTY.Resize` (pty.go:89): passes the requested cols and rows straight to
`pty.Setsize`, with no clamping or validation. -/
def ptyResize (cols rows : Nat) : Winsize :=
  ⟨cols, rows⟩

/-- Action taken by the relay for one parsed control frame. -/
inductive ControlAction where
  | applyResize (w : Winsize)
  | deliverSignal (name : List Char)
  | sendPong
  | ignore
  deriving DecidableEq

/-- `Relay.handleControl` (internal/executor/relay.go:130): dispatch on the
parsed message; resize applies the pty window size, known signals are
delivered (unknown ones ignored by handleSignal), ping answers pong, and all
other frames are ignored. -/
def relayHandleControl (m : Msg) : ControlAction :=
  match m with
  | .resize cols rows => .applyResize (ptyResize cols rows)
  | .signal name =>
      if name = "SIGINT".data ∨ name = "SIGTERM".data ∨
         name = "SIGKILL".data ∨ name = "SIGHUP".data then
        .deliverSignal name
      else .ignore
  | .ping => .sendPong
  | _ => .ignore

/-! ## Quota (internal/db/billing.go) -/

/-- `FreeTierMonthlyTokens` (internal/db/billing.go:34): 1M tokens/month. -/
def FreeTierMonthlyTokens : Int := 1000000

/-- The pair `(allowed, remainingTokens)` returned by `CheckQuota`. -/
structure QuotaResult where
  allowed : Bool
  remaining : Int
  deriving DecidableEq

/-- `CheckQuota` (internal/db/billing.go:154).  The database is abstracted to
the owner's subscription plan and the current month's usage totals (what
`GetOrCreateSubscription` and `GetMonthlyUsage` return). -/
def checkQuota (plan : String) (monthInput monthOutput : Int) : QuotaResult :=
  if plan = "pro" then ⟨true, -1⟩
  else
    let totalUsed := monthInput + monthOutput
    let remaining := FreeTierMonthlyTokens - totalUsed
    if remaining ≤ 0 then ⟨false, 0⟩
    else ⟨true, remaining⟩

/-! ## Session creation (internal/api/handlers.go:76) -/

/-- Success/failure of each external call `CreateSession` makes, plus the
quota state of the requesting user (which the handler can reach through its
database client but never consults). -/
structure CreateEnv where
  decodeOk : Bool
  authed : Bool
  userOk : Bool
  tokenOk : Bool
  imageOk : Bool
  createOk : Bool
  waitOk : Bool
  saveOk : Bool
  plan : String
  monthInput : Int
  monthOutput : Int

/-- Outcome of `CreateSession`: the HTTP status written, whether a compute
machine was provisioned (`CreateMachine` succeeded), and whether it was then
best-effort deleted (the failed-wait cleanup path). -/
structure CreateOutcome where
  status : Nat
  machineCreated : Bool
  machineDeleted : Bool
  deriving DecidableEq

/-- `CreateSession` (internal/api/handlers.go:76): decode, auth, user upsert,
token and label generation, image lookup, machine create, wait-for-start
(cleanup on failure), save (failure logged, response still 200).  No step
reads `plan`, `monthInput` or `monthOutput`: the handler contains no call to
`CheckQuota`. -/
def createSession (env : CreateEnv) : CreateOutcome :=
  if !env.decodeOk then ⟨400, false, false⟩
  else if !env.authed then ⟨401, false, false⟩
  else if !env.userOk then ⟨500, false, false⟩
  else if !env.tokenOk then ⟨500, false, false⟩
  else if !env.imageOk then ⟨500, false, false⟩
  else if !env.createOk then ⟨500, false, false⟩
  else if !env.waitOk then ⟨500, true, true⟩
  else ⟨200, true, false⟩

/-! ## Session rows and the get/stop handlers (internal/api/handlers.go) -/

/-- A session row as read by the handlers (the columns they consult). -/
structure DBSession where
  id : List Char
  userId : List Char
  machineId : List Char
  label : List Char
  deriving DecidableEq

/-- `GetSessionByID` (internal/db/postgres.go:158): `WHERE id = $1`,
any owner. -/
def getSessionByID (tbl : List DBSession) (sid : List Char) :
    Option DBSession :=
  tbl.find? (fun s => s.id = sid)

/-- `GetSessionByLabel` (internal/db/postgres.go:138):
`WHERE user_id = $1 AND label = $2`. -/
def getSessionByLabel (tbl : List DBSession) (uid lab : List Char) :
    Option DBSession :=
  tbl.find? (fun s => s.userId = uid ∧ s.label = lab)

/-- The id-or-label resolution both `GetSession` and `StopSession` perform:
by id first (across all users), falling back to label within the
authenticated user. -/
def resolveSession (tbl : List DBSession) (uid param : List Char) :
    Option DBSession :=
  match getSessionByID tbl param with
  | some s => some s
  | none => getSessionByLabel tbl uid param

/-- Result of the get/stop handlers, after the authenticated user's row has
been found (`uid` is that row's id). -/
inductive SessionResult where
  | ok (s : DBSession)
  | notFound
  deriving DecidableEq

/-- `GetSession` (internal/api/handlers.go:261): resolve id-or-label, then
the ownership check: a row owned by another user gets the same
404 "session not found" as a missing row. -/
def getSessionHandler (tbl : List DBSession) (uid param : List Char) :
    SessionResult :=
  match resolveSession tbl uid param with
  | none => .notFound
  | some s => if s.userId = uid then .ok s else .notFound

/-- State-changing effects `StopSession` can perform. -/
inductive StopEffect where
  | stopMachine (machineId : List Char)
  | deleteMachine (machineId : List Char)
  | deleteRow (id : List Char)
  | setStopped (id : List Char)
  deriving DecidableEq

/-- `StopSession` (internal/api/handlers.go:318): resolution and ownership
check exactly as in `GetSession`; only an owned row leads to machine stop
and (depending on `del`) delete+row-removal or a status update. -/
def stopSessionHandler (tbl : List DBSession) (uid param : List Char)
    (del : Bool) : SessionResult × List StopEffect :=
  match resolveSession tbl uid param with
  | none => (.notFound, [])
  | some s =>
    if s.userId = uid then
      (.ok s,
        if del then
          [.stopMachine s.machineId, .deleteMachine s.machineId,
           .deleteRow s.id]
        else [.stopMachine s.machineId, .setStopped s.id])
    else (.notFound, [])

/-! ## Executor: token validation, upload, connect
    (internal/executor/relay.go) -/

/-- `Server.validateToken` (internal/executor/relay.go:426).  The header is a
`List Char`; `[]` stands for an absent header (Go's `Header.Get` returns ""
in both cases).  An empty configured token short-circuits to `true`. -/
def validateToken (connectToken : List Char) (authHeader : List Char) : Bool :=
  if connectToken = [] then true
  else if authHeader = [] then false
  else
    match splitFirst ' ' authHeader with
    | none => false
    | some (scheme, tok) =>
      scheme.map asciiLower = "bearer".data ∧ tok = connectToken

/-- One archive entry of the uploaded zip. -/
structure ZipEntry where
  name : List Char
  isDir : Bool
  deriving DecidableEq

/-- Filesystem writes performed during extraction. -/
inductive FsWrite where
  | mkdirAll (p : List Char)
  | file (p : List Char)
  deriving DecidableEq

/-- The zip-slip guard of `extractZip` (internal/executor/relay.go:352):
the joined destination must still have `Clean(destDir) + "/"` as a prefix. -/
def zipEntryOk (destDir name : List Char) : Bool :=
  (cleanAbs destDir ++ ['/']).isPrefixOf (goJoin destDir name)

/-- `extractZip`'s entry loop (internal/executor/relay.go:350): check the
guard, then either create the directory or create parents and write the
file; the first failing entry aborts the whole extraction.  `acc` is the
list of writes already performed. -/
def extractZipGo (destDir : List Char) :
    List ZipEntry → List FsWrite → Except (List Char) Unit × List FsWrite
  | [], acc => (.ok (), acc)
  | e :: rest, acc =>
    let destPath := goJoin destDir e.name
    if !zipEntryOk destDir e.name then (.error e.name, acc)
    else if e.isDir then
      extractZipGo destDir rest (acc ++ [.mkdirAll destPath])
    else
      extractZipGo destDir rest
        (acc ++ [.mkdirAll (goDir destPath), .file destPath])

/-- `extractZip` (internal/executor/relay.go:343). -/
def extractZip (entries : List ZipEntry) (destDir : List Char) :
    Except (List Char) Unit × List FsWrite :=
  extractZipGo destDir entries []

/-- `WorkspaceDir` (internal/executor/relay.go:219). -/
def workspaceDir : List Char := "/workspace".data

/-- HTTP result of `handleUpload`. -/
inductive UploadStatus where
  | methodNotAllowed
  | unauthorized
  | conflict
  | extractFailed
  | ok
  deriving DecidableEq

/-- Outcome of `handleUpload`: status, the workspace-ready flag afterwards,
and the extraction writes performed.  (The temporary spool file the handler
copies the body into before extraction is out of scope: it is neither an
archive-controlled path nor under the workspace root.) -/
structure UploadResult where
  status : UploadStatus
  ready : Bool
  writes : List FsWrite
  deriving DecidableEq

/-- `handleUpload` (internal/executor/relay.go:272): method check, token
check, one-shot conflict check, extraction into `WorkspaceDir`; the
workspace-ready flag is set only after a fully successful extraction. -/
def handleUpload (connectToken method authHeader : List Char) (ready : Bool)
    (entries : List ZipEntry) : UploadResult :=
  if method ≠ "POST".data then ⟨.methodNotAllowed, ready, []⟩
  else if !validateToken connectToken authHeader then
    ⟨.unauthorized, ready, []⟩
  else if ready then ⟨.conflict, ready, []⟩
  else
    match extractZip entries workspaceDir with
    | (.error _, ws) => ⟨.extractFailed, ready, ws⟩
    | (.ok _, ws) => ⟨.ok, true, ws⟩

/-- Side effects of `handleConnect`. -/
inductive ConnEffect where
  | acceptWebsocket
  | createPty
  | runRelay
  deriving DecidableEq

/-- HTTP result of `handleConnect`. -/
inductive ConnStatus where
  | unauthorized
  | accepted
  deriving DecidableEq

/-- `handleConnect` (internal/executor/relay.go:391): token check first; only
then is the websocket accepted, the pty created (memoized: only on the first
connect) and the relay run. -/
def handleConnect (connectToken authHeader : List Char) (ptyExists : Bool) :
    ConnStatus × List ConnEffect :=
  if !validateToken connectToken authHeader then (.unauthorized, [])
  else
    (.accepted,
      [.acceptWebsocket] ++ (if ptyExists then [] else [.createPty]) ++
        [.runRelay])

/-! ## Metering proxy request routing (internal/proxy/proxy.go:276) -/

/-- A session row as the proxy consults it. -/
structure ProxySession where
  id : List Char
  userId : List Char
  label : List Char
  deriving DecidableEq

/-- Modelled from the spec: `GetSessionByLabelAnyUser` is called by the proxy
(internal/proxy/proxy.go:299) but its definition is not among the sources;
per the spec, "Look up the session row by label (label is globally unique
among live sessions)" — a label lookup across all users. -/
def getSessionByLabelAnyUser (tbl : List ProxySession) (lab : List Char) :
    Option ProxySession :=
  tbl.find? (fun s => s.label = lab)

/-- Outcome of the proxy's `ServeHTTP`. -/
inductive ProxyOutcome where
  | badRequest
  | unauthorized
  | paymentRequired
  | forward (s : ProxySession) (apiPath : List Char)
  deriving DecidableEq

/-- `ServeHTTP` (internal/proxy/proxy.go:276): require the `/s/` prefix,
split the remainder at the first `/` into label and upstream path (400 when
either step fails), look the label up across all users (401 when absent),
check quota (402 when denied), and forward with the `/s/{label}` prefix
stripped.  The database is abstracted to the session table plus per-user
plan and monthly usage totals. -/
def proxyServe (tbl : List ProxySession) (planOf : List Char → String)
    (usageOf : List Char → Int × Int) (path : List Char) : ProxyOutcome :=
  if !("/s/".data.isPrefixOf path) then .badRequest
  else
    match splitFirst '/' (path.drop 3) with
    | none => .badRequest
    | some (lab, after) =>
      match getSessionByLabelAnyUser tbl lab with
      | none => .unauthorized
      | some s =>
        let q := checkQuota (planOf s.userId) (usageOf s.userId).1
          (usageOf s.userId).2
        if !q.allowed then .paymentRequired
        else .forward s ('/' :: after)

/-- The spec's shape of a well-formed proxy path:
`/s/{label}/{upstream-path}` with a slash-free label. -/
def wellFormedProxyPath (path : List Char) : Prop :=
  ∃ lab after, path = "/s/".data ++ lab ++ '/' :: after ∧ '/' ∉ lab

/-! ## A byte-level JSON reader (models `encoding/json` decoding on the
subset the usage payloads use: objects, arrays, strings with simple escapes,
booleans, null, and integer numbers) -/

/-- The opening-brace character, kept symbolic. -/
def lbrace : Char := Char.ofNat 123

/-- The closing-brace character, kept symbolic. -/
def rbrace : Char := Char.ofNat 125

/-- JSON insignificant whitespace. -/
def jsonWs (c : Char) : Bool :=
  c = ' ' ∨ c = '\t' ∨ c = '\n' ∨ c = '\r'

/-- Decode one string-escape character. -/
def jsonUnescape (c : Char) : Option Char :=
  if c = '"' then some '"'
  else if c = '\\' then some '\\'
  else if c = '/' then some '/'
  else if c = 'n' then some '\n'
  else if c = 't' then some '\t'
  else if c = 'r' then some '\r'
  else if c = 'b' then some (Char.ofNat 8)
  else if c = 'f' then some (Char.ofNat 12)
  else none

/-- Scan a JSON string body (after the opening quote), returning the decoded
characters and the rest of the input. -/
def scanJsonString : List Char → Option (List Char × List Char)
  | [] => none
  | c :: cs =>
    if c = '"' then some ([], cs)
    else if c = '\\' then
      match cs with
      | [] => none
      | e :: cs' =>
        match jsonUnescape e with
        | none => none
        | some ch =>
          match scanJsonString cs' with
          | some (s, rest) => some (ch :: s, rest)
          | none => none
    else
      match scanJsonString cs with
      | some (s, rest) => some (c :: s, rest)
      | none => none

/-- Scan a JSON integer literal. -/
def scanJsonNumber (s : List Char) : Option (Json × List Char) :=
  let neg := match s with | '-' :: _ => true | _ => false
  let s1 := if neg then s.drop 1 else s
  let ds := s1.takeWhile Char.isDigit
  let rest := s1.drop ds.length
  if ds = [] then none
  else
    let bad : Bool := match rest with
      | c :: _ => decide (c = '.' ∨ c = 'e' ∨ c = 'E')
      | [] => false
    if bad then none
    else
      let v : Int := ds.foldl (fun a c => a * 10 + (c.toNat - 48)) 0
      some (.num (if neg then -v else v), rest)

/-- Parse the comma-separated elements of an array, given a parser `pv` for
one value; `fuel` bounds the number of elements. -/
def parseElemsAux (pv : List Char → Option (Json × List Char)) :
    Nat → List Char → Option (List Json × List Char)
  | 0, _ => none
  | fuel + 1, s =>
    match pv s with
    | none => none
    | some (j, rest) =>
      match rest.dropWhile jsonWs with
      | [] => none
      | c :: cs =>
        if c = ']' then some ([j], cs)
        else if c = ',' then
          match parseElemsAux pv fuel cs with
          | some (js, rest') => some (j :: js, rest')
          | none => none
        else none

/-- Parse the comma-separated `"key": value` fields of an object, given a
parser `pv` for one value. -/
def parseFieldsAux (pv : List Char → Option (Json × List Char)) :
    Nat → List Char → Option (List (List Char × Json) × List Char)
  | 0, _ => none
  | fuel + 1, s =>
    match s.dropWhile jsonWs with
    | [] => none
    | q :: qs =>
      if q = '"' then
        match scanJsonString qs with
        | none => none
        | some (key, afterKey) =>
          match afterKey.dropWhile jsonWs with
          | ':' :: afterColon =>
            match pv afterColon with
            | none => none
            | some (j, rest) =>
              match rest.dropWhile jsonWs with
              | [] => none
              | c :: cs =>
                if c = rbrace then some ([(key, j)], cs)
                else if c = ',' then
                  match parseFieldsAux pv fuel cs with
                  | some (fs, rest') => some ((key, j) :: fs, rest')
                  | none => none
                else none
          | _ => none
      else none

/-- Parse one JSON value; `fuel` bounds the nesting depth (each recursive
call follows at least one consumed character, so `length + 1` always
suffices at the top). -/
def parseJsonValue : Nat → List Char → Option (Json × List Char)
  | 0, _ => none
  | fuel + 1, input =>
    let s := input.dropWhile jsonWs
    match s with
    | [] => none
    | c :: cs =>
      if "null".data.isPrefixOf s then some (.null, s.drop 4)
      else if "true".data.isPrefixOf s then some (.bool true, s.drop 4)
      else if "false".data.isPrefixOf s then some (.bool false, s.drop 5)
      else if c = '"' then
        match scanJsonString cs with
        | some (str, rest) => some (.str str, rest)
        | none => none
      else if c = '-' ∨ c.isDigit then scanJsonNumber s
      else if c = '[' then
        match cs.dropWhile jsonWs with
        | ']' :: rest => some (.arr [], rest)
        | _ =>
          match parseElemsAux (parseJsonValue fuel) (cs.length + 1) cs with
          | some (js, rest) => some (.arr js, rest)
          | none => none
      else if c = lbrace then
        match cs.dropWhile jsonWs with
        | d :: ds =>
          if d = rbrace then some (.obj [], ds)
          else
            match parseFieldsAux (parseJsonValue fuel) (cs.length + 1) cs with
            | some (fs, rest) => some (.obj fs, rest)
            | none => none
        | [] => none
      else none

/-- Decode a complete JSON document (`json.Unmarshal` rejects trailing
non-whitespace). -/
def decodeJson (s : List Char) : Option Json :=
  match parseJsonValue (s.length + 1) s with
  | some (j, rest) => if rest.dropWhile jsonWs = [] then some j else none
  | none => none

/-! ## SSE usage accounting (internal/proxy/proxy.go:133, `sseUsageReader`) -/

/-- One row passed to `RecordUsage` (user, session, input, output). -/
structure UsageRow where
  userId : List Char
  sessionId : List Char
  inputTokens : Int
  outputTokens : Int
  deriving DecidableEq

/-- The state of an `sseUsageReader`: the owning session's identifiers, the
unparsed buffer tail, the last observed token counts, and the usage rows
recorded so far. -/
structure SSEUsage where
  userId : List Char
  sessionId : List Char
  buffer : List Char
  inputTokens : Int
  outputTokens : Int
  rows : List UsageRow
  deriving DecidableEq

/-- `json.Unmarshal` of an SSE data payload into the `typeOnly` struct
(proxy.go:225): the payload must be an object and its `type` field (if
present and non-null) a string; `none` models an unmarshal error. -/
def sseTypeOf (j : Json) : Option (List Char) :=
  match j with
  | .obj fields => uFieldString fields "type".data
  | _ => none

/-- `json.Unmarshal` into the `messageStart` struct (proxy.go:234):
`message.usage.input_tokens`, with absent levels yielding 0. -/
def msgStartInput (j : Json) : Option Int :=
  match j with
  | .obj fields =>
    match jLookup fields "message".data with
    | none => some 0
    | some .null => some 0
    | some (.obj ms) =>
      match jLookup ms "usage".data with
      | none => some 0
      | some .null => some 0
      | some (.obj us) => uFieldInt us "input_tokens".data
      | some _ => none
    | some _ => none
  | _ => none

/-- `json.Unmarshal` into the `messageDelta` struct (proxy.go:246):
`usage.output_tokens`, with absent levels yielding 0. -/
def msgDeltaOutput (j : Json) : Option Int :=
  match j with
  | .obj fields =>
    match jLookup fields "usage".data with
    | none => some 0
    | some .null => some 0
    | some (.obj us) => uFieldInt us "output_tokens".data
    | some _ => none
  | _ => none

/-- `parseSSEData` (proxy.go:223): decode, read the type, then
`message_start` overwrites the input count and `message_delta` overwrites
the output count only when the parsed value is positive. -/
def parseSSEData (st : SSEUsage) (data : List Char) : SSEUsage :=
  match decodeJson data with
  | none => st
  | some j =>
    match sseTypeOf j with
    | none => st
    | some t =>
      if t = "message_start".data then
        match msgStartInput j with
        | some n => { st with inputTokens := n }
        | none => st
      else if t = "message_delta".data then
        match msgDeltaOutput j with
        | some n => if n > 0 then { st with outputTokens := n } else st
        | none => st
      else st

/-- One line of an SSE event block (proxy.go:207): strip a trailing `\r`,
require the `data: ` marker, skip the `[DONE]` sentinel. -/
def handleSSELine (st : SSEUsage) (line : List Char) : SSEUsage :=
  let line := if line.getLast? = some '\r' then line.dropLast else line
  if "data: ".data.isPrefixOf line then
    let data := line.drop 6
    if data = "[DONE]".data then st else parseSSEData st data
  else st

/-- `parseSSEEvent` (proxy.go:204): split on newlines and process each
data line. -/
def parseSSEEvent (st : SSEUsage) (event : List Char) : SSEUsage :=
  (splitOnChar '\n' event).foldl handleSSELine st

/-- The event-splitting loop of `parseSSEEvents` (proxy.go:179): cut the
buffer at each `\n\n` (or, failing that, `\r\n\r\n`) separator.  `fuel`
bounds the iterations; every cut consumes at least two buffered characters,
so `length + 1` always suffices. -/
def parseSSEEventsAux : Nat → SSEUsage → SSEUsage
  | 0, st => st
  | fuel + 1, st =>
    match findSub "\n\n".data st.buffer with
    | some i =>
      let ev := st.buffer.take i
      parseSSEEventsAux fuel
        (parseSSEEvent { st with buffer := st.buffer.drop (i + 2) } ev)
    | none =>
      match findSub "\r\n\r\n".data st.buffer with
      | some i =>
        let ev := st.buffer.take i
        parseSSEEventsAux fuel
          (parseSSEEvent { st with buffer := st.buffer.drop (i + 4) } ev)
      | none => st

/-- `parseSSEEvents` (proxy.go:179). -/
def parseSSEEvents (st : SSEUsage) : SSEUsage :=
  parseSSEEventsAux (st.buffer.length + 1) st

/-- `sseUsageReader.Read` (proxy.go:142) for one delivered chunk: append to
the buffer and parse complete events (a zero-length read parses nothing). -/
def sseRead (st : SSEUsage) (chunk : List Char) : SSEUsage :=
  if chunk = [] then st
  else parseSSEEvents { st with buffer := st.buffer ++ chunk }

/-- `recordUsageOnce` (proxy.go:157): append one usage row if either count
is positive, then zero both counts so a second trigger records nothing. -/
def recordUsageOnce (st : SSEUsage) : SSEUsage :=
  if st.inputTokens > 0 ∨ st.outputTokens > 0 then
    { st with
      rows := st.rows ++
        [⟨st.userId, st.sessionId, st.inputTokens, st.outputTokens⟩],
      inputTokens := 0, outputTokens := 0 }
  else st

/-- A fresh `sseUsageReader` for a session. -/
def sseInit (userId sessionId : List Char) : SSEUsage :=
  ⟨userId, sessionId, [], 0, 0, []⟩

/-- A whole stream read to EOF and then closed: every chunk through `Read`,
the EOF trigger inside `Read`, then the `Close` trigger. -/
def sseRun (userId sessionId : List Char) (chunks : List (List Char)) :
    SSEUsage :=
  recordUsageOnce
    (recordUsageOnce (chunks.foldl sseRead (sseInit userId sessionId)))

/-- A stream whose body is closed before EOF is observed: only the `Close`
trigger fires. -/
def sseRunCloseOnly (userId sessionId : List Char)
    (chunks : List (List Char)) : SSEUsage :=
  recordUsageOnce (chunks.foldl sseRead (sseInit userId sessionId))

/-- The spec's streaming scenario: `message_start` with `input_tokens=12`,
three `message_delta` events with `output_tokens` 5, 10, 17, then
`message_stop` and the `data: [DONE]` sentinel. -/
def sseScenarioStream : List Char :=
  ("event: message_start\ndata: \x7b\"type\":\"message_start\",\"message\":\x7b\"usage\":\x7b\"input_tokens\":12\x7d\x7d\x7d\n\n"
    ++ "event: message_delta\ndata: \x7b\"type\":\"message_delta\",\"usage\":\x7b\"output_tokens\":5\x7d\x7d\n\n"
    ++ "event: message_delta\ndata: \x7b\"type\":\"message_delta\",\"usage\":\x7b\"output_tokens\":10\x7d\x7d\n\n"
    ++ "event: message_delta\ndata: \x7b\"type\":\"message_delta\",\"usage\":\x7b\"output_tokens\":17\x7d\x7d\n\n"
    ++ "event: message_stop\ndata: \x7b\"type\":\"message_stop\"\x7d\n\n"
    ++ "data: [DONE]\n\n").data

/-- A stream whose last `message_delta` carries `output_tokens=0`:
`message_start` with 3, a delta with 7, then a delta with 0. -/
def sseZeroDeltaStream : List Char :=
  ("data: \x7b\"type\":\"message_start\",\"message\":\x7b\"usage\":\x7b\"input_tokens\":3\x7d\x7d\x7d\n\n"
    ++ "data: \x7b\"type\":\"message_delta\",\"usage\":\x7b\"output_tokens\":7\x7d\x7d\n\n"
    ++ "data: \x7b\"type\":\"message_delta\",\"usage\":\x7b\"output_tokens\":0\x7d\x7d\n\n"
    ++ "data: [DONE]\n\n").data

/-- A stream carrying no usage events at all. -/
def sseStopOnlyStream : List Char :=
  ("data: \x7b\"type\":\"message_stop\"\x7d\n\ndata: [DONE]\n\n").data

/-! ## Helper lemmas -/

theorem splitFirst_cons_self {c : Char} (xs : List Char) :
    splitFirst c (c :: xs) = some ([], xs) := by
  simp [splitFirst]

theorem splitFirst_cons_ne {c x : Char} (xs : List Char) (hx : ¬ x = c) :
    splitFirst c (x :: xs) =
      match splitFirst c xs with
      | some (l, r) => some (x :: l, r)
      | none => none := by
  simp [splitFirst, hx]

theorem splitFirst_eq_none {c : Char} :
    ∀ {xs : List Char}, splitFirst c xs = none ↔ c ∉ xs := by
  intro xs
  induction xs with
  | nil => simp [splitFirst]
  | cons x xs ih =>
    by_cases hx : x = c
    · subst hx
      rw [splitFirst_cons_self]
      simp
    · rw [splitFirst_cons_ne xs hx]
      cases hs : splitFirst c xs with
      | none =>
        have hni : c ∉ xs := ih.mp hs
        constructor
        · intro _ hmem
          rcases List.mem_cons.mp hmem with h1 | h2
          · exact hx h1.symm
          · exact hni h2
        · intro _; rfl
      | some p =>
        obtain ⟨l, r⟩ := p
        have hin : c ∈ xs := by
          by_contra hc
          rw [← ih] at hc
          rw [hc] at hs
          cases hs
        constructor
        · intro h; cases h
        · intro h
          exact absurd (List.mem_cons_of_mem _ hin) h

theorem splitFirst_sound {c : Char} :
    ∀ {xs l r : List Char}, splitFirst c xs = some (l, r) →
      xs = l ++ c :: r ∧ c ∉ l := by
  intro xs
  induction xs with
  | nil => intro l r h; cases h
  | cons x xs ih =>
    intro l r h
    by_cases hx : x = c
    · subst hx
      rw [splitFirst_cons_self] at h
      cases h
      simp
    · rw [splitFirst_cons_ne xs hx] at h
      cases hs : splitFirst c xs with
      | none => rw [hs] at h; cases h
      | some p =>
        obtain ⟨l', r'⟩ := p
        rw [hs] at h
        cases h
        obtain ⟨hxs, hnotin⟩ := ih hs
        subst hxs
        refine ⟨rfl, ?_⟩
        intro hmem
        rcases List.mem_cons.mp hmem with h1 | h2
        · exact hx h1.symm
        · exact hnotin h2

theorem splitFirst_of_append {c : Char} :
    ∀ {l : List Char} (r : List Char), c ∉ l →
      splitFirst c (l ++ c :: r) = some (l, r) := by
  intro l
  induction l with
  | nil => intro r _; simp [splitFirst]
  | cons x xs ih =>
    intro r h
    have hx : ¬ x = c := by
      intro hc; exact h (by simp [hc])
    have hxs : c ∉ xs := fun hm => h (List.mem_cons_of_mem _ hm)
    rw [List.cons_append, splitFirst_cons_ne _ hx, ih r hxs]

theorem drop3_after_sep (t : List Char) : ("/s/".data ++ t).drop 3 = t := rfl

theorem sep_isPrefixOf (t : List Char) :
    "/s/".data.isPrefixOf ("/s/".data ++ t) = true := by
  rw [List.isPrefixOf_iff_prefix]
  exact List.prefix_append _ _

theorem extractZipGo_cons_bad {destDir : List Char} {e : ZipEntry}
    {rest : List ZipEntry} {acc : List FsWrite}
    (hok : zipEntryOk destDir e.name = false) :
    extractZipGo destDir (e :: rest) acc = (.error e.name, acc) := by
  simp [extractZipGo, hok]

theorem extractZipGo_cons_dir {destDir : List Char} {e : ZipEntry}
    {rest : List ZipEntry} {acc : List FsWrite}
    (hok : zipEntryOk destDir e.name = true) (hd : e.isDir = true) :
    extractZipGo destDir (e :: rest) acc =
      extractZipGo destDir rest
        (acc ++ [.mkdirAll (goJoin destDir e.name)]) := by
  simp [extractZipGo, hok, hd]

theorem extractZipGo_cons_file {destDir : List Char} {e : ZipEntry}
    {rest : List ZipEntry} {acc : List FsWrite}
    (hok : zipEntryOk destDir e.name = true) (hd : e.isDir = false) :
    extractZipGo destDir (e :: rest) acc =
      extractZipGo destDir rest
        (acc ++ [.mkdirAll (goDir (goJoin destDir e.name)),
                 .file (goJoin destDir e.name)]) := by
  simp [extractZipGo, hok, hd]

theorem extractZipGo_error_of_bad {destDir : List Char} :
    ∀ {entries : List ZipEntry} {acc : List FsWrite},
      (∃ e ∈ entries, zipEntryOk destDir e.name = false) →
      ∃ m, (extractZipGo destDir entries acc).1 = .error m := by
  intro entries
  induction entries with
  | nil => intro acc h; obtain ⟨e, he, _⟩ := h; cases he
  | cons e rest ih =>
    intro acc h
    cases hok : zipEntryOk destDir e.name with
    | false => exact ⟨e.name, by rw [extractZipGo_cons_bad hok]⟩
    | true =>
      have htail : ∃ x ∈ rest, zipEntryOk destDir x.name = false := by
        obtain ⟨x, hx, hbad⟩ := h
        cases List.mem_cons.mp hx with
        | inl hxe => rw [hxe, hok] at hbad; cases hbad
        | inr hxr => exact ⟨x, hxr, hbad⟩
      cases hd : e.isDir with
      | true => rw [extractZipGo_cons_dir hok hd]; exact ih htail
      | false => rw [extractZipGo_cons_file hok hd]; exact ih htail

theorem extractZipGo_file_writes {destDir : List Char} :
    ∀ {entries : List ZipEntry} {acc : List FsWrite},
      (∀ p, FsWrite.file p ∈ acc →
        (cleanAbs destDir ++ ['/']).isPrefixOf p = true) →
      ∀ p, FsWrite.file p ∈ (extractZipGo destDir entries acc).2 →
        (cleanAbs destDir ++ ['/']).isPrefixOf p = true := by
  intro entries
  induction entries with
  | nil => intro acc hacc p hp; exact hacc p hp
  | cons e rest ih =>
    intro acc hacc p hp
    cases hok : zipEntryOk destDir e.name with
    | false =>
      rw [extractZipGo_cons_bad hok] at hp
      exact hacc p hp
    | true =>
      cases hd : e.isDir with
      | true =>
        rw [extractZipGo_cons_dir hok hd] at hp
        refine ih ?_ p hp
        intro q hq
        rcases List.mem_append.mp hq with hq | hq
        · exact hacc q hq
        · simp at hq
      | false =>
        rw [extractZipGo_cons_file hok hd] at hp
        refine ih ?_ p hp
        intro q hq
        rcases List.mem_append.mp hq with hq | hq
        · exact hacc q hq
        · rcases List.mem_cons.mp hq with hq | hq
          · cases hq
          · rcases List.mem_cons.mp hq with hq | hq
            · cases hq
              simpa [zipEntryOk] using hok
            · cases hq

theorem parseSSEData_rows (st : SSEUsage) (d : List Char) :
    (parseSSEData st d).rows = st.rows := by
  unfold parseSSEData
  repeat' split
  all_goals rfl

theorem handleSSELine_rows (st : SSEUsage) (line : List Char) :
    (handleSSELine st line).rows = st.rows := by
  unfold handleSSELine
  dsimp only
  repeat' split
  all_goals first | rfl | apply parseSSEData_rows

theorem parseSSEEvent_rows (st : SSEUsage) (event : List Char) :
    (parseSSEEvent st event).rows = st.rows := by
  unfold parseSSEEvent
  generalize splitOnChar '\n' event = lines
  induction lines generalizing st with
  | nil => rfl
  | cons l ls ih =>
    rw [List.foldl_cons, ih, handleSSELine_rows]

theorem parseSSEEventsAux_rows :
    ∀ (fuel : Nat) (st : SSEUsage), (parseSSEEventsAux fuel st).rows = st.rows := by
  intro fuel
  induction fuel with
  | zero => intro st; rfl
  | succ f ih =>
    intro st
    unfold parseSSEEventsAux
    split
    · rw [ih, parseSSEEvent_rows]
    · split
      · rw [ih, parseSSEEvent_rows]
      · rfl

theorem sseRead_rows (st : SSEUsage) (chunk : List Char) :
    (sseRead st chunk).rows = st.rows := by
  unfold sseRead
  split
  · rfl
  · rw [parseSSEEvents, parseSSEEventsAux_rows]

theorem foldl_sseRead_rows :
    ∀ (chunks : List (List Char)) (st : SSEUsage),
      (chunks.foldl sseRead st).rows = st.rows := by
  intro chunks
  induction chunks with
  | nil => intro st; rfl
  | cons c cs ih =>
    intro st
    rw [List.foldl_cons, ih, sseRead_rows]

theorem recordUsageOnce_twice_len (st : SSEUsage) :
    (recordUsageOnce (recordUsageOnce st)).rows.length ≤ st.rows.length + 1 := by
  unfold recordUsageOnce
  by_cases h : st.inputTokens > 0 ∨ st.outputTokens > 0
  · simp [h]
  · simp [h]

theorem recordUsageOnce_len (st : SSEUsage) :
    (recordUsageOnce st).rows.length ≤ st.rows.length + 1 := by
  unfold recordUsageOnce
  by_cases h : st.inputTokens > 0 ∨ st.outputTokens > 0
  · simp [h]
  · simp [h]

theorem resolveSession_foreign {tbl : List DBSession} {s : DBSession}
    {u p : List Char} (hne : s.userId ≠ u)
    (hOwned : ∀ t ∈ tbl, t.userId = u → t.id ≠ p ∧ t.label ≠ p)
    (hUniq : ∀ t ∈ tbl, t.id = p → t = s) :
    ∀ {T : List DBSession}, (∀ t ∈ T, t ∈ tbl) →
      ∀ t, resolveSession T u p = some t → t.userId ≠ u := by
  intro T hsub t hres
  unfold resolveSession at hres
  cases hid : getSessionByID T p with
  | some t' =>
    rw [hid] at hres
    cases hres
    have hpred := List.find?_some hid
    have hmem := List.mem_of_find?_eq_some hid
    have htid : t.id = p := by simpa using hpred
    have : t = s := hUniq t (hsub t hmem) htid
    rw [this]
    exact hne
  | none =>
    rw [hid] at hres
    have hpred := List.find?_some hres
    have hmem := List.mem_of_find?_eq_some hres
    have hup : t.userId = u ∧ t.label = p := by simpa using hpred
    exact absurd hup.2 ((hOwned t (hsub t hmem) hup.1).2)

/-! ## Claim theorems -/

/-- C2 (counterexample): the claim says a check with exactly C accumulated
tokens allows the next request; `CheckQuota` computes `remaining = C - used`
and denies when `remaining ≤ 0`, so at exactly C (remaining = 0) it denies,
while at C - 1 it still allows. -/
theorem checkQuota_exact_ceiling_denies :
    (checkQuota "free" FreeTierMonthlyTokens 0).allowed = false ∧
    (checkQuota "free" (FreeTierMonthlyTokens - 1) 0).allowed = true := by
  decide

/-- C2 (amended): the quota predicate allows a pro plan unconditionally;
otherwise it allows iff the month's input+output total is strictly below
the free-tier ceiling C = 1,000,000 — so C - 1 accumulated tokens allow the
next request and exactly C (or more) denies. -/
theorem checkQuota_allows_iff_below_ceiling (plan : String) (i o : Int) :
    (plan = "pro" → (checkQuota plan i o).allowed = true) ∧
    (plan ≠ "pro" →
      ((checkQuota plan i o).allowed = true ↔ i + o < FreeTierMonthlyTokens)) := by
  constructor
  · intro hp
    simp [checkQuota, hp]
  · intro hp
    simp only [checkQuota, if_neg hp]
    by_cases hle : FreeTierMonthlyTokens - (i + o) ≤ 0
    · rw [if_pos hle]
      simp only [show (⟨false, 0⟩ : QuotaResult).allowed = false from rfl]
      constructor
      · intro h; cases h
      · intro h; omega
    · rw [if_neg hle]
      simp only [show ∀ r, (⟨true, r⟩ : QuotaResult).allowed = true from
        fun _ => rfl]
      constructor
      · intro _; omega
      · intro _; trivial

theorem checkQuota_allows_iff_below_ceiling_witness :
    (checkQuota "free" 999999 0).allowed = true ↔
      (999999 : Int) + 0 < FreeTierMonthlyTokens :=
  (checkQuota_allows_iff_below_ceiling "free" 999999 0).2 (by decide)

/-- C3: evaluation of `CreateSession` at the failing input — a free-plan
user whose month total already exceeds the free-tier ceiling.  The handler
returns 200 and provisions a machine (it contains no quota check), even
though the quota predicate it was supposed to consult denies. -/
theorem createSession_no_quota_gate :
    createSession
        ⟨true, true, true, true, true, true, true, true, "free",
          FreeTierMonthlyTokens + 1, 0⟩ = ⟨200, true, false⟩ ∧
    (checkQuota "free" (FreeTierMonthlyTokens + 1) 0).allowed = false := by
  decide

/-- C8 (counterexample): the claim says a resize with cols=0 is clamped to 1;
`handleControl` applies `PTY.Resize` which passes the values through
unmodified, so cols=0 is applied as 0, not 1. -/
theorem resize_zero_not_clamped :
    relayHandleControl (.resize 0 40) = .applyResize ⟨0, 40⟩ ∧
    relayHandleControl (.resize 0 40) ≠ .applyResize ⟨1, 40⟩ := by
  decide

/-- C8 (amended): every resize control frame is applied to the pty window
with the received cols and rows unmodified — no clamping and no rejection;
in particular cols=0 or rows=0 is passed through as 0. -/
theorem resize_applied_unclamped (cols rows : Nat) :
    relayHandleControl (.resize cols rows) = .applyResize (ptyResize cols rows) ∧
    ptyResize cols rows = ⟨cols, rows⟩ :=
  ⟨rfl, rfl⟩

/-- C10: with an empty capability token (CONNECT_TOKEN unset),
`validateToken` returns true for every Authorization header, and both
`/upload` and `/connect` proceed past authentication regardless of the
header — executor authentication is entirely disabled. -/
theorem empty_token_disables_auth (auth : List Char) (ready ptyExists : Bool)
    (entries : List ZipEntry) :
    validateToken [] auth = true ∧
    (handleConnect [] auth ptyExists).1 = .accepted ∧
    (handleUpload [] "POST".data auth ready entries).status ≠ .unauthorized := by
  refine ⟨rfl, rfl, ?_⟩
  unfold handleUpload
  rw [if_neg (by simp)]
  rw [show validateToken [] auth = true from rfl]
  simp only [Bool.not_true, Bool.false_eq_true, if_false]
  split
  · intro h; cases h
  · split
    · intro h; cases h
    · intro h; cases h

/-- C5 (counterexample): the claim says every `/connect` request whose
Authorization header carries no matching bearer token is rejected with 401
before any side effect; with an empty configured token a request with no
Authorization header at all is accepted and the websocket/pty side effects
run. -/
theorem connect_no_auth_accepted_when_token_empty :
    validateToken [] [] = true ∧
    (handleConnect [] [] false).1 = .accepted ∧
    (handleConnect [] [] false).2 ≠ [] := by
  decide

/-- C5 (amended): provided the executor's configured capability token is
non-empty, every `/upload` (POST) or `/connect` request that fails the
bearer-token check is answered 401 with no side effect: no extraction
write, no websocket accept, no pty creation. -/
theorem executor_rejects_bad_token (tok auth : List Char) (ready : Bool)
    (entries : List ZipEntry) (ptyExists : Bool)
    (_hne : tok ≠ []) (hbad : validateToken tok auth = false) :
    handleUpload tok "POST".data auth ready entries = ⟨.unauthorized, ready, []⟩ ∧
    handleConnect tok auth ptyExists = (.unauthorized, []) := by
  constructor
  · unfold handleUpload
    rw [if_neg (by simp), hbad]
    rfl
  · unfold handleConnect
    rw [hbad]
    rfl

theorem executor_rejects_bad_token_witness :
    handleUpload "secret".data "POST".data [] false [] =
        ⟨.unauthorized, false, []⟩ ∧
    handleConnect "secret".data [] false = (.unauthorized, []) :=
  executor_rejects_bad_token "secret".data [] false [] false
    (by decide) (by decide)

/-- C7: for a session row owned by another user, `get` and `stop` (by id or
label) return exactly the 404 "session not found" result they return when
the row is absent from the table — never a forbidden response — and `stop`
performs no state-changing effect.  The uniqueness side conditions
(`hOwned`, `hUniq`) are the data-model invariants: the requester owns no row
with that id or label, and ids are unique. -/
theorem foreign_session_not_found (tbl : List DBSession) (s : DBSession)
    (u p : List Char) (del : Bool)
    (_hmem : s ∈ tbl) (hne : s.userId ≠ u) (_hp : p = s.id ∨ p = s.label)
    (hOwned : ∀ t ∈ tbl, t.userId = u → t.id ≠ p ∧ t.label ≠ p)
    (hUniq : ∀ t ∈ tbl, t.id = p → t = s) :
    getSessionHandler tbl u p = .notFound ∧
    getSessionHandler (tbl.erase s) u p = .notFound ∧
    stopSessionHandler tbl u p del = (.notFound, []) ∧
    stopSessionHandler (tbl.erase s) u p del = (.notFound, []) := by
  have main : ∀ T : List DBSession, (∀ t ∈ T, t ∈ tbl) →
      getSessionHandler T u p = .notFound ∧
      stopSessionHandler T u p del = (.notFound, []) := by
    intro T hsub
    have hfor := resolveSession_foreign hne hOwned hUniq hsub
    constructor
    · unfold getSessionHandler
      cases hres : resolveSession T u p with
      | none => rfl
      | some t =>
        have hut := hfor t hres
        dsimp only
        rw [if_neg hut]
    · unfold stopSessionHandler
      cases hres : resolveSession T u p with
      | none => rfl
      | some t =>
        have hut := hfor t hres
        dsimp only
        rw [if_neg hut]
  have h1 := main tbl (fun t ht => ht)
  have h2 := main (tbl.erase s) (fun t ht => List.mem_of_mem_erase ht)
  exact ⟨h1.1, h2.1, h1.2, h2.2⟩

theorem foreign_session_not_found_witness :
    getSessionHandler [⟨"id1".data, "u1".data, "m1".data, "lab1".data⟩]
        "u2".data "id1".data = .notFound ∧
    getSessionHandler
        (([⟨"id1".data, "u1".data, "m1".data, "lab1".data⟩] :
          List DBSession).erase
          ⟨"id1".data, "u1".data, "m1".data, "lab1".data⟩)
        "u2".data "id1".data = .notFound ∧
    stopSessionHandler [⟨"id1".data, "u1".data, "m1".data, "lab1".data⟩]
        "u2".data "id1".data false = (.notFound, []) ∧
    stopSessionHandler
        (([⟨"id1".data, "u1".data, "m1".data, "lab1".data⟩] :
          List DBSession).erase
          ⟨"id1".data, "u1".data, "m1".data, "lab1".data⟩)
        "u2".data "id1".data false = (.notFound, []) :=
  foreign_session_not_found
    [⟨"id1".data, "u1".data, "m1".data, "lab1".data⟩]
    ⟨"id1".data, "u1".data, "m1".data, "lab1".data⟩
    "u2".data "id1".data false
    (by decide) (by decide) (Or.inl (by decide)) (by decide) (by decide)

/-- C4: zip-slip safety of the executor's upload path.  (1) If any archive
entry's joined destination escapes the workspace root (fails the
prefix guard), the whole extraction aborts with an error; (2) every file
write performed by extraction (aborted or not) lies strictly under the
workspace root; (3) whenever extraction fails, `handleUpload` leaves the
workspace-ready flag false. -/
theorem zip_slip_safety (entries : List ZipEntry) :
    ((∃ e ∈ entries, zipEntryOk workspaceDir e.name = false) →
      ∃ m, (extractZip entries workspaceDir).1 = .error m) ∧
    (∀ p, FsWrite.file p ∈ (extractZip entries workspaceDir).2 →
      (cleanAbs workspaceDir ++ ['/']).isPrefixOf p = true) ∧
    (∀ tok auth : List Char,
      (∃ m, (extractZip entries workspaceDir).1 = .error m) →
      (handleUpload tok "POST".data auth false entries).ready = false) := by
  refine ⟨?_, ?_, ?_⟩
  · intro h
    exact extractZipGo_error_of_bad h
  · intro p hp
    refine extractZipGo_file_writes ?_ p hp
    intro q hq
    cases hq
  · intro tok auth herr
    unfold handleUpload
    rw [if_neg (by simp)]
    cases hv : validateToken tok auth with
    | false => rfl
    | true =>
      simp only [Bool.not_true, Bool.false_eq_true, if_false]
      obtain ⟨m, hm⟩ := herr
      rcases hx : extractZip entries workspaceDir with ⟨res, ws⟩
      rw [hx] at hm
      cases res with
      | error m' => rfl
      | ok u => cases hm

theorem zip_slip_safety_witness :
    (∃ m, (extractZip [⟨"../etc/passwd".data, false⟩] workspaceDir).1 =
      .error m) ∧
    (handleUpload "tok".data "POST".data "Bearer tok".data false
      [⟨"../etc/passwd".data, false⟩]).ready = false := by
  have h := zip_slip_safety [⟨"../etc/passwd".data, false⟩]
  have herr := h.1 ⟨⟨"../etc/passwd".data, false⟩, by decide, by decide⟩
  exact ⟨herr, h.2.2 "tok".data "Bearer tok".data herr⟩

/-- C6: proxy path routing.  A path not of the form
`/s/{label}/{upstream-path}` is answered 400 and never forwarded; a
well-formed path whose label matches no session row is answered 401 (not
404) and never forwarded; when the label resolves (and quota allows), the
proxy forwards with the `/s/{label}` prefix stripped, i.e. with exactly the
remaining upstream path. -/
theorem proxy_routing (tbl : List ProxySession) (planOf : List Char → String)
    (usageOf : List Char → Int × Int) (path : List Char) :
    (¬ wellFormedProxyPath path →
      proxyServe tbl planOf usageOf path = .badRequest) ∧
    (∀ lab after, path = "/s/".data ++ lab ++ '/' :: after → '/' ∉ lab →
      getSessionByLabelAnyUser tbl lab = none →
      proxyServe tbl planOf usageOf path = .unauthorized) ∧
    (∀ lab after s, path = "/s/".data ++ lab ++ '/' :: after → '/' ∉ lab →
      getSessionByLabelAnyUser tbl lab = some s →
      (checkQuota (planOf s.userId) (usageOf s.userId).1
        (usageOf s.userId).2).allowed = true →
      proxyServe tbl planOf usageOf path = .forward s ('/' :: after)) := by
  refine ⟨?_, ?_, ?_⟩
  · intro hnw
    unfold proxyServe
    cases hpre : "/s/".data.isPrefixOf path with
    | false => simp [hpre]
    | true =>
      obtain ⟨t, rfl⟩ : ∃ t, path = "/s/".data ++ t := by
        obtain ⟨t, ht⟩ := List.isPrefixOf_iff_prefix.mp hpre
        exact ⟨t, ht.symm⟩
      simp only [Bool.not_true, Bool.false_eq_true, if_false]
      rw [drop3_after_sep]
      cases hsp : splitFirst '/' t with
      | none => rfl
      | some pr =>
        obtain ⟨l, r⟩ := pr
        obtain ⟨ht, hnl⟩ := splitFirst_sound hsp
        exact absurd ⟨l, r, by rw [ht, List.append_assoc], hnl⟩ hnw
  · intro lab after hpath hnl hnone
    rw [List.append_assoc] at hpath
    subst hpath
    unfold proxyServe
    rw [sep_isPrefixOf]
    simp only [Bool.not_true, Bool.false_eq_true, if_false]
    rw [drop3_after_sep, splitFirst_of_append after hnl]
    dsimp only
    rw [hnone]
  · intro lab after s hpath hnl hsome hq
    rw [List.append_assoc] at hpath
    subst hpath
    unfold proxyServe
    rw [sep_isPrefixOf]
    simp only [Bool.not_true, Bool.false_eq_true, if_false]
    rw [drop3_after_sep, splitFirst_of_append after hnl]
    dsimp only
    rw [hsome]
    dsimp only
    rw [hq]
    rfl

theorem proxy_routing_witness :
    proxyServe [⟨"sid".data, "uid".data, "brave-tiger-1234".data⟩]
        (fun _ => "free") (fun _ => (0, 0))
        "/s/brave-tiger-1234/v1/messages".data =
      .forward ⟨"sid".data, "uid".data, "brave-tiger-1234".data⟩
        "/v1/messages".data :=
  (proxy_routing [⟨"sid".data, "uid".data, "brave-tiger-1234".data⟩]
      (fun _ => "free") (fun _ => (0, 0))
      "/s/brave-tiger-1234/v1/messages".data).2.2
    "brave-tiger-1234".data "v1/messages".data
    ⟨"sid".data, "uid".data, "brave-tiger-1234".data⟩
    (by decide) (by decide) rfl (by decide)

/-- C9: for every control frame kind, constructing the message, encoding it
to JSON and parsing the result with `ParseMessage` yields the identical
semantic value (same discriminant, same field values); the uint16 bounds on
cols and rows are the ones the `ResizeMessage` struct itself carries. -/
theorem control_frame_roundtrip (cols rows : Nat) (name message : List Char)
    (code : Int) (sig : Option (List Char))
    (hc : cols < 65536) (hr : rows < 65536) :
    parseMessage (marshalMsg (.resize cols rows)) = some (.resize cols rows) ∧
    parseMessage (marshalMsg (.signal name)) = some (.signal name) ∧
    parseMessage (marshalMsg .ping) = some .ping ∧
    parseMessage (marshalMsg .pong) = some .pong ∧
    parseMessage (marshalMsg .ready) = some .ready ∧
    parseMessage (marshalMsg (.exitFrame code sig)) =
      some (.exitFrame code sig) ∧
    parseMessage (marshalMsg (.errorFrame message)) =
      some (.errorFrame message) := by
  refine ⟨?_, rfl, rfl, rfl, rfl, ?_, rfl⟩
  · have hcols : uFieldU16
        [("type".data, .str "resize".data), ("cols".data, .num cols),
         ("rows".data, .num rows)] "cols".data = some cols := by
      unfold uFieldU16
      rw [show jLookup
        [("type".data, .str "resize".data), ("cols".data, .num cols),
         ("rows".data, .num rows)] "cols".data = some (.num cols) from rfl]
      dsimp only
      rw [if_pos ⟨Int.ofNat_nonneg _, by exact_mod_cast hc⟩,
        Int.toNat_natCast]
    have hrows : uFieldU16
        [("type".data, .str "resize".data), ("cols".data, .num cols),
         ("rows".data, .num rows)] "rows".data = some rows := by
      unfold uFieldU16
      rw [show jLookup
        [("type".data, .str "resize".data), ("cols".data, .num cols),
         ("rows".data, .num rows)] "rows".data = some (.num rows) from rfl]
      dsimp only
      rw [if_pos ⟨Int.ofNat_nonneg _, by exact_mod_cast hr⟩,
        Int.toNat_natCast]
    rw [show marshalMsg (.resize cols rows) =
      .obj [("type".data, .str "resize".data), ("cols".data, .num cols),
            ("rows".data, .num rows)] from rfl]
    rw [show ∀ v1 v2,
      parseMessage (.obj [("type".data, .str "resize".data),
        ("cols".data, v1), ("rows".data, v2)]) =
        (match uFieldU16 [("type".data, Json.str "resize".data),
            ("cols".data, v1), ("rows".data, v2)] "cols".data,
          uFieldU16 [("type".data, Json.str "resize".data),
            ("cols".data, v1), ("rows".data, v2)] "rows".data with
          | some c, some r => some (Msg.resize c r)
          | _, _ => none) from fun v1 v2 => rfl]
    rw [hcols, hrows]
  · cases sig with
    | none => rfl
    | some s => rfl

theorem control_frame_roundtrip_witness :
    parseMessage (marshalMsg (.resize 120 40)) = some (.resize 120 40) :=
  (control_frame_roundtrip 120 40 "SIGINT".data "boom".data 0
    (some "SIGTERM".data) (by decide) (by decide)).1

set_option maxRecDepth 200000 in
/-- C1 (counterexample): the claim says each `message_delta` overwrites the
output count and every stream produces exactly one row.  A stream whose
deltas carry 7 then 0 records output 7, not the claimed last value 0
(`parseSSEData` ignores non-positive deltas); and a stream with no usage
events records no row at all, not exactly one (`recordUsageOnce` skips
all-zero counts). -/
theorem sse_delta_zero_counterexample :
    (sseRun "user-1".data "sess-1".data [sseZeroDeltaStream]).rows =
      [⟨"user-1".data, "sess-1".data, 3, 7⟩] ∧
    (sseRun "user-1".data "sess-1".data [sseStopOnlyStream]).rows = [] := by
  decide

set_option maxRecDepth 200000 in
/-- C1 (amended): the wrapper sets the input count from the last
`message_start` event and overwrites the output count with each
`message_delta` whose `output_tokens` is positive (non-positive deltas leave
the count unchanged); across the EOF and close triggers it records at most
one usage row per stream — none when no positive count was observed — and
on the spec's scenario (`message_start` 12; deltas 5, 10, 17) it records
exactly the one row (user, session, 12, 17), also when the bytes arrive
split across reads. -/
theorem sse_accounting_amended :
    (∀ u sid chunks,
      (sseRun u sid chunks).rows.length ≤ 1 ∧
      (sseRunCloseOnly u sid chunks).rows.length ≤ 1) ∧
    (sseRun "user-1".data "sess-1".data
        [sseScenarioStream.take 40, sseScenarioStream.drop 40]).rows =
      [⟨"user-1".data, "sess-1".data, 12, 17⟩] := by
  constructor
  · intro u sid chunks
    have h0 : (chunks.foldl sseRead (sseInit u sid)).rows = [] := by
      rw [foldl_sseRead_rows]
      rfl
    constructor
    · unfold sseRun
      calc (recordUsageOnce
            (recordUsageOnce (chunks.foldl sseRead (sseInit u sid)))).rows.length
          ≤ (chunks.foldl sseRead (sseInit u sid)).rows.length + 1 :=
            recordUsageOnce_twice_len _
        _ = 1 := by rw [h0]; rfl
    · unfold sseRunCloseOnly
      calc (recordUsageOnce (chunks.foldl sseRead (sseInit u sid))).rows.length
          ≤ (chunks.foldl sseRead (sseInit u sid)).rows.length + 1 :=
            recordUsageOnce_len _
        _ = 1 := by rw [h0]; rfl
  · decide

end Catty
